import Mathlib

/-!
# StorageManager: a dual-indexed inventory registry

Shallow embedding of `Source.cpp` (classes `StoredItem` and `StorageManager`).

Modelling decisions, all read off the source:

* `std::string` is a Lean `String`.  The ordering used by `std::map<std::string, _>` is
  `std::less<std::string>`, i.e. lexicographic comparison of the characters with a proper
  prefix ordered first; it is embedded as `strLess`, a structural recursion over the two
  character lists.
* `std::shared_ptr<StoredItem>` is the `StoredItem` value it points to: the class has no
  mutator (three private fields, three `const` getters), so a pointer is observable only
  through the three strings of its pointee.  Null pointers are not item records and are
  outside the model.
* `std::unordered_map` is an association list whose iteration order is never observed by the
  program; `std::map` is an association list kept in ascending key order by insertion.
* A member function takes the object state and returns the pair of its outcome
  (`Except Exception _`, a thrown exception being `Except.error`) and the object state it
  leaves behind.  The state component is whatever the body has written when it returns or
  throws, so that "unchanged on failure" is a statement about the code, not about the type.
-/

/-! ## Exceptions -/

/-- The two exception classes of the source. Both derive from `std::runtime_error`; `msg` is
the string handed to the constructor. The message a handler reads is `Exception.what`. -/
inductive Exception where
  | DuplicateItemException (msg : String)
  | ItemNotFoundException (msg : String)
  deriving DecidableEq, Repr

/-- The exception is a `DuplicateItemException`. -/
def Exception.isDuplicateItem : Exception → Bool
  | .DuplicateItemException _ => true
  | .ItemNotFoundException _ => false

/-- The exception is an `ItemNotFoundException`. -/
def Exception.isItemNotFound : Exception → Bool
  | .DuplicateItemException _ => false
  | .ItemNotFoundException _ => true

/-- The text of a C string: the characters in front of the first NUL character. -/
def cString (s : String) : String :=
  String.mk (s.data.takeWhile (fun c => c != Char.ofNat 0))

/-- Member `what()` of `std::runtime_error`: the constructor string as a `const char*`, which
a handler such as `std::cout << e.what()` reads up to the first NUL character. -/
def Exception.what : Exception → String
  | .DuplicateItemException msg => cString msg
  | .ItemNotFoundException msg => cString msg

/-- The string contains no NUL character. -/
def hasNoNul (s : String) : Bool := s.data.all (fun c => c != Char.ofNat 0)

/-! ## StoredItem -/

/-- Class `StoredItem`: three strings fixed at construction. -/
structure StoredItem where
  id : String
  description : String
  location : String
  deriving DecidableEq, Repr

namespace StoredItem

/-- Getter `getId`. -/
def getId (self : StoredItem) : String := self.id

/-- Getter `getDescription`. -/
def getDescription (self : StoredItem) : String := self.description

/-- Getter `getLocation`. -/
def getLocation (self : StoredItem) : String := self.location

end StoredItem

/-! ## String ordering -/

/-- Lexicographic "less than" on character sequences: the first differing character decides,
and a proper prefix is smaller. -/
def lexLess : List Char → List Char → Bool
  | [], [] => false
  | [], _ :: _ => true
  | _ :: _, [] => false
  | a :: as, b :: bs =>
    if a.toNat < b.toNat then true
    else if b.toNat < a.toNat then false
    else lexLess as bs

/-- The comparison `std::less<std::string>` of the ordered index. -/
def strLess (a b : String) : Bool := lexLess a.data b.data

/-- Key equivalence of `std::map`: neither key is less than the other. -/
def strEquiv (a b : String) : Bool := !strLess a b && !strLess b a

/-! ## std::unordered_map -/

/-- Entries of a `std::unordered_map<std::string, β>`. -/
abbrev UMap (β : Type) := List (String × β)

namespace UMap

variable {β : Type}

/-- Member `find(k)`: the entry with key `k`, or `none` for `end()`. -/
def find (m : UMap β) (k : String) : Option (String × β) :=
  List.find? (fun p => p.1 == k) m

/-- Member `count(k)`: the number of entries with key `k`. -/
def count (m : UMap β) (k : String) : Nat :=
  List.countP (fun p => p.1 == k) m

/-- The statement `m[k] = v`: overwrite the value stored under `k`, or add a new entry. -/
def assign : UMap β → String → β → UMap β
  | [], k, v => [(k, v)]
  | (k', v') :: rest, k, v =>
    if k' == k then (k', v) :: rest else (k', v') :: assign rest k v

/-- Member `erase(it)` for the iterator `it = find(k)`: drop the entry found. -/
def erase (m : UMap β) (k : String) : UMap β :=
  List.eraseP (fun p => p.1 == k) m

/-- Member `size()`. -/
def size (m : UMap β) : Nat := m.length

/-- The keys held. -/
def keys (m : UMap β) : List String := m.map Prod.fst

end UMap

/-! ## std::map -/

/-- Entries of a `std::map<std::string, β>`, in iteration order. -/
abbrev OMap (β : Type) := List (String × β)

namespace OMap

variable {β : Type}

/-- The statement `m[k] = v`: walk to the first key not less than `k`; overwrite its value
when it is equivalent to `k`, otherwise put the new entry in front of it. -/
def assign : OMap β → String → β → OMap β
  | [], k, v => [(k, v)]
  | (k', v') :: rest, k, v =>
    if strLess k' k then (k', v') :: assign rest k v
    else if strLess k k' then (k, v) :: (k', v') :: rest
    else (k', v) :: rest

/-- Member `erase(k)`: drop the entry whose key is equivalent to `k`. -/
def erase (m : OMap β) (k : String) : OMap β :=
  List.filter (fun p => !strEquiv p.1 k) m

/-- Member `find(k)`: the entry whose key is equivalent to `k`, or `none` for `end()`. -/
def find (m : OMap β) (k : String) : Option (String × β) :=
  List.find? (fun p => strEquiv p.1 k) m

/-- The keys held, in iteration order. -/
def keys (m : OMap β) : List String := m.map Prod.fst

end OMap

/-! ## StorageManager -/

/-- Class `StorageManager`: the two private indexes. -/
structure StorageManager where
  itemById : UMap StoredItem
  itemByDescription : OMap StoredItem
  deriving DecidableEq, Repr

namespace StorageManager

/-- A default-constructed manager: both indexes empty. -/
def empty : StorageManager := ⟨[], []⟩

/-- Member `addItem`. -/
def addItem (self : StorageManager) (item : StoredItem) :
    Except Exception Unit × StorageManager :=
  if UMap.count self.itemById item.getId > 0 then
    (.error (.DuplicateItemException ("Item with ID " ++ item.getId ++ " already exists.")),
      self)
  else
    let s1 : StorageManager :=
      { self with itemById := UMap.assign self.itemById item.getId item }
    let s2 : StorageManager :=
      { s1 with itemByDescription := OMap.assign s1.itemByDescription item.getDescription item }
    (.ok (), s2)

/-- Member `findById`. -/
def findById (self : StorageManager) (id : String) :
    Except Exception StoredItem × StorageManager :=
  match UMap.find self.itemById id with
  | none => (.error (.ItemNotFoundException ("Item with ID " ++ id ++ " not found.")), self)
  | some it => (.ok it.2, self)

/-- Member `removeItem`. -/
def removeItem (self : StorageManager) (id : String) :
    Except Exception Unit × StorageManager :=
  match UMap.find self.itemById id with
  | none => (.error (.ItemNotFoundException ("Item with ID " ++ id ++ " not found.")), self)
  | some it =>
    let des := it.2.getDescription
    let s1 : StorageManager := { self with itemById := UMap.erase self.itemById id }
    let s2 : StorageManager :=
      { s1 with itemByDescription := OMap.erase s1.itemByDescription des }
    (.ok (), s2)

/-- The `(description, location)` pairs visited by the loop of `listItemsByDescription`, in
the order of the loop. -/
def listedPairs (self : StorageManager) : List (String × String) :=
  self.itemByDescription.map (fun pair => (pair.2.getDescription, pair.2.getLocation))

/-- Member `listItemsByDescription`; its value is the text written to `std::cout`. -/
def listItemsByDescription (self : StorageManager) :
    Except Exception String × StorageManager :=
  (.ok ((listedPairs self).foldl (fun out p => out ++ "- " ++ p.1 ++ ": " ++ p.2 ++ "\n")
      "Items in Description Order:\n"), self)

/-! ### Call sequences -/

/-- A mutating call on the manager. -/
inductive Call where
  | addItem (item : StoredItem)
  | removeItem (id : String)
  deriving DecidableEq, Repr

/-- The state left by one call, whether it returns or throws. -/
def step (s : StorageManager) : Call → StorageManager
  | .addItem item => (s.addItem item).2
  | .removeItem id => (s.removeItem id).2

/-- The state left by a sequence of calls, first call first. -/
def run (calls : List Call) (s : StorageManager) : StorageManager :=
  calls.foldl step s

/-- States the class can be in: those a sequence of `addItem` and `removeItem` calls produces
from a default-constructed manager.  The indexes are private, so no other state exists. -/
def Reachable (s : StorageManager) : Prop :=
  ∃ calls : List Call, s = run calls empty

/-- The outcome is a normal return. -/
def succeeded {α : Type} : Except Exception α → Bool
  | .ok _ => true
  | .error _ => false

/-- Some call `removeItem(id)` of the sequence, run from `s`, returns normally. -/
def removedSince (id : String) : List Call → StorageManager → Bool
  | [], _ => false
  | c :: cs, s =>
    (match c with
      | .removeItem id' => id' == id && succeeded (s.removeItem id').1
      | .addItem _ => false) || removedSince id cs (step s c)

/-- Some record of the primary index has this description. -/
def holdsDescription (s : StorageManager) (d : String) : Bool :=
  s.itemById.any (fun p => p.2.getDescription == d)

/-- No `addItem` of the sequence, run from `s`, returns normally with a description that a
record of the primary index has at that moment. -/
def collisionFree : List Call → StorageManager → Bool
  | [], _ => true
  | c :: cs, s =>
    (match c with
      | .addItem item =>
        !(succeeded (s.addItem item).1 && holdsDescription s item.getDescription)
      | .removeItem _ => true) && collisionFree cs (step s c)

/-- The records held by the primary index. -/
def primaryRecords (s : StorageManager) : List StoredItem := s.itemById.map Prod.snd

/-- The records held by the secondary index. -/
def secondaryRecords (s : StorageManager) : List StoredItem :=
  s.itemByDescription.map Prod.snd

/-- Invariant I1 of the specification: the two indexes hold the same set of records. -/
def SameRecords (s : StorageManager) : Prop :=
  (∀ r ∈ primaryRecords s, r ∈ secondaryRecords s) ∧
    (∀ r ∈ secondaryRecords s, r ∈ primaryRecords s)

instance (s : StorageManager) : Decidable (SameRecords s) :=
  inferInstanceAs (Decidable (_ ∧ _))

end StorageManager

/-- Keys strictly ascending along the iteration order: the shape of a `std::map`. -/
def OMap.Sorted {β : Type} (m : OMap β) : Prop :=
  List.Pairwise (fun p q => strLess p.1 q.1 = true) m

/-- What every state produced by the member functions satisfies. -/
structure StorageManager.Inv (s : StorageManager) : Prop where
  idKeysNodup : (UMap.keys s.itemById).Nodup
  idKeyed : ∀ p ∈ s.itemById, p.2.id = p.1
  descSorted : OMap.Sorted s.itemByDescription
  descKeyed : ∀ p ∈ s.itemByDescription, p.2.description = p.1
  descInId : ∀ p ∈ s.itemByDescription, (p.2.id, p.2) ∈ s.itemById

/-- What states produced without a description collision satisfy in addition. -/
structure StorageManager.InvDistinct (s : StorageManager) : Prop where
  idInDesc : ∀ p ∈ s.itemById, (p.2.description, p.2) ∈ s.itemByDescription
  descNodup : (s.itemById.map (fun p => p.2.description)).Nodup

/-! ## Sample records -/

/-- First record of the demonstration in `main`. -/
def item1 : StoredItem := ⟨"ITEM001", "Wireless Mouse", "Aisle 2, Shelf 3"⟩

/-- Second record of the demonstration in `main`. -/
def item2 : StoredItem := ⟨"ITEM002", "Airpods", "Aisle 1, Shelf 7"⟩

/-- A record with a fresh identifier and the description of `item1`. -/
def item3 : StoredItem := ⟨"ITEM003", "Wireless Mouse", "Aisle 9, Shelf 1"⟩

/-- The record `duplicate` of `testDuplicateAddition`: the identifier of `item1` again. -/
def duplicate : StoredItem := ⟨"ITEM001", "Wireless Mouse", "Aisle 4, Shelf 2"⟩

/-- An identifier with a NUL character in the middle: `a`, NUL, `b`. -/
def nulId : String := String.mk ['a', Char.ofNat 0, 'b']

/-- A record stored under `nulId`. -/
def nulItem : StoredItem := ⟨nulId, "Cable", "Aisle 5, Shelf 2"⟩

/-- The manager of `main` after its two successful `addItem` calls. -/
def demo : StorageManager := StorageManager.run [.addItem item1, .addItem item2] .empty

/-! ## Properties of the string ordering -/

theorem Char.eq_of_toNat_eq {a b : Char} (h : a.toNat = b.toNat) : a = b := by
  apply Char.ext
  apply UInt32.ext
  simpa [Char.toNat, UInt32.toNat] using h

theorem lexLess_irrefl (a : List Char) : lexLess a a = false := by
  induction a with
  | nil => rfl
  | cons c cs ih => simp [lexLess, ih]

theorem lexLess_trans : ∀ (a b c : List Char),
    lexLess a b = true → lexLess b c = true → lexLess a c = true
  | [], [], _, h, _ => by simp [lexLess] at h
  | [], _ :: _, [], _, h => by simp [lexLess] at h
  | [], _ :: _, _ :: _, _, _ => by simp [lexLess]
  | _ :: _, [], _, h, _ => by simp [lexLess] at h
  | _ :: _, _ :: _, [], _, h => by simp [lexLess] at h
  | x :: xs, y :: ys, z :: zs, h₁, h₂ => by
    simp only [lexLess] at h₁ h₂ ⊢
    split_ifs at h₁ h₂ ⊢ <;> first
      | rfl
      | omega
      | exact lexLess_trans xs ys zs h₁ h₂

theorem lexLess_total : ∀ (a b : List Char),
    lexLess a b = false → lexLess b a = false → a = b
  | [], [], _, _ => rfl
  | [], _ :: _, h, _ => by simp [lexLess] at h
  | _ :: _, [], _, h => by simp [lexLess] at h
  | x :: xs, y :: ys, h₁, h₂ => by
    simp only [lexLess] at h₁ h₂
    split_ifs at h₁ h₂
    · have hxy : x = y := Char.eq_of_toNat_eq (by omega)
      rw [hxy, lexLess_total xs ys h₁ h₂]

theorem strLess_irrefl (a : String) : strLess a a = false := lexLess_irrefl a.data

theorem strLess_trans {a b c : String} (h₁ : strLess a b = true) (h₂ : strLess b c = true) :
    strLess a c = true := lexLess_trans _ _ _ h₁ h₂

theorem strLess_ne {a b : String} (h : strLess a b = true) : a ≠ b := by
  rintro rfl
  rw [strLess_irrefl] at h
  exact Bool.noConfusion h

theorem strLess_asymm {a b : String} (h : strLess a b = true) : strLess b a = false := by
  cases hba : strLess b a
  · rfl
  · have := strLess_trans h hba
    rw [strLess_irrefl] at this
    exact Bool.noConfusion this

theorem strEquiv_iff_eq (a b : String) : strEquiv a b = true ↔ a = b := by
  constructor
  · intro h
    simp only [strEquiv, Bool.and_eq_true, Bool.not_eq_true'] at h
    exact String.ext (lexLess_total _ _ h.1 h.2)
  · rintro rfl
    simp [strEquiv, strLess_irrefl]

theorem strEquiv_of_not_less {a b : String} (h₁ : strLess a b = false)
    (h₂ : strLess b a = false) : a = b :=
  (strEquiv_iff_eq a b).mp (by simp [strEquiv, h₁, h₂])

/-! ## Properties of the two containers -/

namespace UMap

variable {β : Type}

theorem count_pos_iff (m : UMap β) (k : String) : 0 < count m k ↔ k ∈ keys m := by
  simp [count, keys, List.countP_pos_iff]

theorem find_eq_none_iff (m : UMap β) (k : String) : find m k = none ↔ k ∉ keys m := by
  simp only [find, keys, List.find?_eq_none, List.mem_map, not_exists, not_and]
  constructor
  · intro h p hp e
    exact h p hp (by simpa using e)
  · intro h p hp e
    exact h p hp (by simpa using e)

theorem find_some {m : UMap β} {k : String} {p : String × β} (h : find m k = some p) :
    p ∈ m ∧ p.1 = k := by
  refine ⟨List.mem_of_find?_eq_some h, ?_⟩
  simpa using List.find?_some h

theorem find_of_mem {m : UMap β} (hm : (keys m).Nodup) {k : String} {v : β}
    (h : (k, v) ∈ m) : find m k = some (k, v) := by
  induction m with
  | nil => simp at h
  | cons q t ih =>
    obtain ⟨k', v'⟩ := q
    simp only [keys, List.map_cons, List.nodup_cons] at hm
    rcases List.mem_cons.mp h with h | h
    · simp [find, ← h]
    · have hne : k' ≠ k := by
        rintro rfl
        exact hm.1 (List.mem_map_of_mem Prod.fst h)
      have := ih hm.2 h
      simp only [find] at this ⊢
      rw [List.find?_cons_of_neg _ (by simpa using hne)]
      exact this

theorem assign_of_not_mem {m : UMap β} {k : String} (h : k ∉ keys m) (v : β) :
    assign m k v = m ++ [(k, v)] := by
  induction m with
  | nil => rfl
  | cons q t ih =>
    obtain ⟨k', v'⟩ := q
    simp only [keys, List.map_cons, List.mem_cons, not_or] at h
    have hne : k' ≠ k := fun e => h.1 e.symm
    simp [assign, hne, ih h.2]

theorem erase_eq_filter {m : UMap β} (hm : (keys m).Nodup) (k : String) :
    erase m k = List.filter (fun p => p.1 != k) m := by
  induction m with
  | nil => rfl
  | cons q t ih =>
    obtain ⟨k', v'⟩ := q
    simp only [keys, List.map_cons, List.nodup_cons] at hm
    by_cases hk : k' = k
    · subst hk
      have : List.filter (fun p : String × β => p.1 != k') t = t := by
        apply List.filter_eq_self.mpr
        intro p hp
        have : p.1 ≠ k' := fun e => hm.1 (e ▸ List.mem_map_of_mem Prod.fst hp)
        simpa using this
      simp [erase, List.eraseP_cons, this]
    · have := ih hm.2
      simp only [erase] at this
      simp [erase, List.eraseP_cons, hk, this]

theorem mem_erase {m : UMap β} (hm : (keys m).Nodup) (k : String) (p : String × β) :
    p ∈ erase m k ↔ p ∈ m ∧ p.1 ≠ k := by
  rw [erase_eq_filter hm]
  simp [List.mem_filter]

theorem nodup_keys_erase {m : UMap β} (hm : (keys m).Nodup) (k : String) :
    (keys (erase m k)).Nodup := by
  rw [erase_eq_filter hm]
  exact hm.sublist ((List.filter_sublist m).map Prod.fst)

end UMap

namespace OMap

variable {β : Type}

theorem mem_assign_self (m : OMap β) (k : String) (v : β) : (k, v) ∈ assign m k v := by
  induction m with
  | nil => simp [assign]
  | cons q t ih =>
    obtain ⟨k', v'⟩ := q
    simp only [assign]
    split_ifs with h₁ h₂
    · exact List.mem_cons_of_mem _ ih
    · exact List.mem_cons_self _ _
    · have : k' = k := strEquiv_of_not_less (by simpa using h₁) (by simpa using h₂)
      simp [this]

theorem mem_assign_of_mem {m : OMap β} {k : String} (v : β) {p : String × β}
    (hp : p ∈ m) (hne : p.1 ≠ k) : p ∈ assign m k v := by
  induction m with
  | nil => simp at hp
  | cons q t ih =>
    obtain ⟨k', v'⟩ := q
    simp only [assign]
    split_ifs with h₁ h₂
    · rcases List.mem_cons.mp hp with h | h
      · exact h ▸ List.mem_cons_self _ _
      · exact List.mem_cons_of_mem _ (ih h)
    · exact List.mem_cons_of_mem _ hp
    · have hk : k' = k := strEquiv_of_not_less (by simpa using h₁) (by simpa using h₂)
      rcases List.mem_cons.mp hp with h | h
      · exact absurd (by rw [h, hk]) hne
      · exact List.mem_cons_of_mem _ h

theorem mem_of_mem_assign {m : OMap β} {k : String} {v : β} {p : String × β}
    (hp : p ∈ assign m k v) : p = (k, v) ∨ p ∈ m := by
  induction m with
  | nil => simpa [assign] using hp
  | cons q t ih =>
    obtain ⟨k', v'⟩ := q
    simp only [assign] at hp
    split_ifs at hp with h₁ h₂
    · rcases List.mem_cons.mp hp with h | h
      · exact Or.inr (h ▸ List.mem_cons_self _ _)
      · exact (ih h).imp id (List.mem_cons_of_mem _)
    · rcases List.mem_cons.mp hp with h | h
      · exact Or.inl h
      · exact Or.inr h
    · have hk : k' = k := strEquiv_of_not_less (by simpa using h₁) (by simpa using h₂)
      rcases List.mem_cons.mp hp with h | h
      · exact Or.inl (by rw [h, hk])
      · exact Or.inr (List.mem_cons_of_mem _ h)

theorem sorted_assign {m : OMap β} (hm : Sorted m) (k : String) (v : β) :
    Sorted (assign m k v) := by
  induction m with
  | nil => simp [assign, Sorted]
  | cons q t ih =>
    obtain ⟨k', v'⟩ := q
    have hm' := List.pairwise_cons.mp hm
    simp only [assign]
    split_ifs with h₁ h₂
    · refine List.pairwise_cons.mpr ⟨?_, ih hm'.2⟩
      intro p hp
      rcases mem_of_mem_assign hp with h | h
      · rw [h]; exact h₁
      · exact hm'.1 p h
    · refine List.pairwise_cons.mpr ⟨?_, hm⟩
      intro p hp
      rcases List.mem_cons.mp hp with h | h
      · rw [h]; exact h₂
      · exact strLess_trans h₂ (hm'.1 p h)
    · exact List.pairwise_cons.mpr ⟨hm'.1, hm'.2⟩

theorem find_assign_self (m : OMap β) (k : String) (v : β) :
    find (assign m k v) k = some (k, v) := by
  induction m with
  | nil => simp [assign, find, (strEquiv_iff_eq k k).mpr rfl]
  | cons q t ih =>
    obtain ⟨k', v'⟩ := q
    simp only [assign]
    split_ifs with h₁ h₂
    · have hne : strEquiv k' k = false := by
        cases h : strEquiv k' k
        · rfl
        · exact absurd ((strEquiv_iff_eq _ _).mp h) (strLess_ne h₁)
      simp only [find] at ih ⊢
      rw [List.find?_cons_of_neg _ (by simp [hne])]
      exact ih
    · simp [find, (strEquiv_iff_eq k k).mpr rfl]
    · have hk : k' = k := strEquiv_of_not_less (by simpa using h₁) (by simpa using h₂)
      simp [find, hk, (strEquiv_iff_eq k k).mpr rfl]

theorem mem_eraseKey (m : OMap β) (k : String) (p : String × β) :
    p ∈ erase m k ↔ p ∈ m ∧ p.1 ≠ k := by
  simp only [erase, List.mem_filter, Bool.not_eq_true', and_congr_right_iff]
  intro _
  rw [← Bool.not_eq_true, strEquiv_iff_eq]

theorem sorted_erase {m : OMap β} (hm : Sorted m) (k : String) : Sorted (erase m k) :=
  List.Pairwise.sublist (List.filter_sublist m) hm

theorem nodup_keys_of_sorted {m : OMap β} (hm : Sorted m) : (keys m).Nodup := by
  simp only [keys, List.Nodup, List.pairwise_map]
  exact hm.imp (fun h => strLess_ne h)

end OMap

/-! ## The member functions, case by case -/

namespace StorageManager

theorem addItem_of_mem {s : StorageManager} {item : StoredItem}
    (h : item.id ∈ UMap.keys s.itemById) :
    s.addItem item =
      (.error (.DuplicateItemException ("Item with ID " ++ item.id ++ " already exists.")), s) := by
  have hc : UMap.count s.itemById item.id > 0 := (UMap.count_pos_iff _ _).mpr h
  simp [addItem, StoredItem.getId, hc]

theorem addItem_of_not_mem {s : StorageManager} {item : StoredItem}
    (h : item.id ∉ UMap.keys s.itemById) :
    s.addItem item =
      (.ok (), ⟨s.itemById ++ [(item.id, item)],
        OMap.assign s.itemByDescription item.description item⟩) := by
  have hc : ¬ UMap.count s.itemById item.id > 0 := fun hc => h ((UMap.count_pos_iff _ _).mp hc)
  simp only [addItem, StoredItem.getId, StoredItem.getDescription, hc, if_false,
    UMap.assign_of_not_mem h]

theorem removeItem_of_not_mem {s : StorageManager} {id : String}
    (h : id ∉ UMap.keys s.itemById) :
    s.removeItem id =
      (.error (.ItemNotFoundException ("Item with ID " ++ id ++ " not found.")), s) := by
  simp only [removeItem, (UMap.find_eq_none_iff _ _).mpr h]

theorem removeItem_of_find {s : StorageManager} {id : String} {p : String × StoredItem}
    (h : UMap.find s.itemById id = some p) :
    s.removeItem id =
      (.ok (), ⟨UMap.erase s.itemById id, OMap.erase s.itemByDescription p.2.description⟩) := by
  simp only [removeItem, h, StoredItem.getDescription]

theorem findById_of_not_mem {s : StorageManager} {id : String}
    (h : id ∉ UMap.keys s.itemById) :
    s.findById id =
      (.error (.ItemNotFoundException ("Item with ID " ++ id ++ " not found.")), s) := by
  simp only [findById, (UMap.find_eq_none_iff _ _).mpr h]

theorem findById_of_find {s : StorageManager} {id : String} {p : String × StoredItem}
    (h : UMap.find s.itemById id = some p) : s.findById id = (.ok p.2, s) := by
  simp only [findById, h]

theorem exists_find_of_mem {s : StorageManager} {id : String}
    (h : id ∈ UMap.keys s.itemById) : ∃ p, UMap.find s.itemById id = some p := by
  cases hf : UMap.find s.itemById id with
  | none => exact absurd h ((UMap.find_eq_none_iff _ _).mp hf)
  | some p => exact ⟨p, rfl⟩

/-! ## The invariant of reachable states -/

theorem inv_empty : Inv empty :=
  ⟨List.nodup_nil, by simp [empty], List.Pairwise.nil, by simp [empty], by simp [empty]⟩

theorem inv_addItem {s : StorageManager} (hs : Inv s) (item : StoredItem) :
    Inv (s.addItem item).2 := by
  by_cases h : item.id ∈ UMap.keys s.itemById
  · rw [addItem_of_mem h]; exact hs
  · rw [addItem_of_not_mem h]
    refine ⟨?_, ?_, OMap.sorted_assign hs.descSorted _ _, ?_, ?_⟩
    · simp only [UMap.keys, List.map_append, List.map_cons, List.map_nil]
      refine List.Nodup.append hs.idKeysNodup (List.nodup_singleton _) ?_
      intro k hk hk'
      rw [List.mem_singleton] at hk'
      exact h (hk' ▸ hk)
    · intro p hp
      rcases List.mem_append.mp hp with hp | hp
      · exact hs.idKeyed p hp
      · rw [List.mem_singleton] at hp; rw [hp]
    · intro p hp
      rcases OMap.mem_of_mem_assign hp with hp | hp
      · rw [hp]
      · exact hs.descKeyed p hp
    · intro p hp
      rcases OMap.mem_of_mem_assign hp with hp | hp
      · rw [hp]; exact List.mem_append_right _ (List.mem_singleton_self _)
      · exact List.mem_append_left _ (hs.descInId p hp)

theorem inv_removeItem {s : StorageManager} (hs : Inv s) (id : String) :
    Inv (s.removeItem id).2 := by
  by_cases h : id ∈ UMap.keys s.itemById
  · obtain ⟨q, hq⟩ := exists_find_of_mem h
    obtain ⟨hqm, hqk⟩ := UMap.find_some hq
    rw [removeItem_of_find hq]
    refine ⟨UMap.nodup_keys_erase hs.idKeysNodup _, ?_, OMap.sorted_erase hs.descSorted _, ?_, ?_⟩
    · intro p hp
      exact hs.idKeyed p ((UMap.mem_erase hs.idKeysNodup _ _).mp hp).1
    · intro p hp
      exact hs.descKeyed p ((OMap.mem_eraseKey _ _ _).mp hp).1
    · intro p hp
      obtain ⟨hpm, hpk⟩ := (OMap.mem_eraseKey _ _ _).mp hp
      refine (UMap.mem_erase hs.idKeysNodup _ _).mpr ⟨hs.descInId p hpm, ?_⟩
      intro hid
      -- the record `p.2` would be the one stored under `id`, whose description was erased
      have hfind := UMap.find_of_mem hs.idKeysNodup (hs.descInId p hpm)
      have hid' : p.2.id = id := hid
      rw [hid', hq] at hfind
      have hq2 : q.2 = p.2 := by rw [Option.some.inj hfind]
      exact hpk (by rw [← hs.descKeyed p hpm, hq2])
  · rw [removeItem_of_not_mem h]; exact hs

theorem inv_step {s : StorageManager} (hs : Inv s) (c : Call) : Inv (step s c) := by
  cases c with
  | addItem item => exact inv_addItem hs item
  | removeItem id => exact inv_removeItem hs id

theorem inv_run (calls : List Call) {s : StorageManager} (hs : Inv s) : Inv (run calls s) := by
  induction calls generalizing s with
  | nil => exact hs
  | cons c cs ih => exact ih (inv_step hs c)

theorem inv_of_reachable {s : StorageManager} (h : Reachable s) : Inv s := by
  obtain ⟨calls, rfl⟩ := h
  exact inv_run calls inv_empty

theorem reachable_empty : Reachable empty := ⟨[], rfl⟩

theorem run_append (xs ys : List Call) (s : StorageManager) :
    run (xs ++ ys) s = run ys (run xs s) := by
  simp [run, List.foldl_append]

theorem reachable_step {s : StorageManager} (h : Reachable s) (c : Call) :
    Reachable (step s c) := by
  obtain ⟨calls, rfl⟩ := h
  exact ⟨calls ++ [c], by rw [run_append]; rfl⟩

end StorageManager

/-! ## Lookups after an update -/

theorem UMap.find_append_singleton {β : Type} {m : UMap β} {k : String}
    (h : k ∉ UMap.keys m) (v : β) : UMap.find (m ++ [(k, v)]) k = some (k, v) := by
  have hn : List.find? (fun p : String × β => p.1 == k) m = none :=
    (UMap.find_eq_none_iff m k).mpr h
  simp [UMap.find, List.find?_append, hn]

theorem UMap.find_erase_self {β : Type} {m : UMap β} (hm : (UMap.keys m).Nodup) (k : String) :
    UMap.find (UMap.erase m k) k = none := by
  rw [UMap.find_eq_none_iff]
  intro hk
  obtain ⟨p, hp, hpk⟩ := List.mem_map.mp hk
  exact ((UMap.mem_erase hm k p).mp hp).2 hpk

theorem OMap.find_none_iff {β : Type} (m : OMap β) (k : String) :
    OMap.find m k = none ↔ k ∉ OMap.keys m := by
  simp only [OMap.find, OMap.keys, List.find?_eq_none, List.mem_map, not_exists, not_and]
  constructor
  · intro h p hp e
    exact h p hp ((strEquiv_iff_eq _ _).mpr e)
  · intro h p hp e
    exact h p hp ((strEquiv_iff_eq _ _).mp e)

theorem OMap.find_eraseKey_self {β : Type} (m : OMap β) (k : String) :
    OMap.find (OMap.erase m k) k = none := by
  rw [OMap.find_none_iff]
  intro hk
  obtain ⟨p, hp, hpk⟩ := List.mem_map.mp hk
  exact ((OMap.mem_eraseKey m k p).mp hp).2 hpk

/-! ## The contract of each member function -/

namespace StorageManager

/-- C1: `addItem` throws `DuplicateItemException` exactly when the identifier of the item is a
key of `itemById`, and whenever it throws, the manager (both indexes) is as before the call. -/
theorem addItem_throws_iff (s : StorageManager) (item : StoredItem) :
    ((∃ msg, (s.addItem item).1 = .error (.DuplicateItemException msg)) ↔
        item.id ∈ UMap.keys s.itemById) ∧
      (∀ e, (s.addItem item).1 = .error e →
        (s.addItem item).2 = s ∧
          (s.addItem item).2.itemById = s.itemById ∧
          (s.addItem item).2.itemByDescription = s.itemByDescription) := by
  by_cases h : item.id ∈ UMap.keys s.itemById
  · rw [addItem_of_mem h]
    exact ⟨⟨fun _ => h, fun _ => ⟨_, rfl⟩⟩, fun _ _ => ⟨rfl, rfl, rfl⟩⟩
  · rw [addItem_of_not_mem h]
    refine ⟨⟨?_, fun h' => absurd h' h⟩, ?_⟩
    · rintro ⟨msg, hmsg⟩
      exact Except.noConfusion hmsg
    · intro e he
      exact Except.noConfusion he

/-- At the manager of `main`, adding a second record with identifier `ITEM001` throws and
leaves the manager as it was. -/
theorem addItem_throws_iff_witness :
    (demo.addItem ⟨"ITEM001", "Wireless Mouse", "Aisle 4, Shelf 2"⟩).2 = demo :=
  ((addItem_throws_iff demo ⟨"ITEM001", "Wireless Mouse", "Aisle 4, Shelf 2"⟩).2
    (.DuplicateItemException "Item with ID ITEM001 already exists.") rfl).1

/-- C2: when the identifier of the item is not a key of `itemById`, `addItem` returns normally;
afterwards `itemById` maps the identifier to the item (and `findById` returns it),
`itemByDescription` maps the description to the item, and `itemById` has one more entry. -/
theorem addItem_fresh (s : StorageManager) (item : StoredItem)
    (h : item.id ∉ UMap.keys s.itemById) :
    (s.addItem item).1 = .ok () ∧
      UMap.find (s.addItem item).2.itemById item.id = some (item.id, item) ∧
      ((s.addItem item).2.findById item.id).1 = .ok item ∧
      OMap.find (s.addItem item).2.itemByDescription item.description
        = some (item.description, item) ∧
      UMap.size (s.addItem item).2.itemById = UMap.size s.itemById + 1 := by
  rw [addItem_of_not_mem h]
  have hf := UMap.find_append_singleton h item
  refine ⟨rfl, hf, ?_, OMap.find_assign_self _ _ _, ?_⟩
  · rw [findById_of_find hf]
  · simp [UMap.size]

/-- Adding `item3`, whose identifier is new, to the manager of `main`. -/
theorem addItem_fresh_witness :
    (demo.addItem item3).1 = .ok () ∧
      UMap.find (demo.addItem item3).2.itemById "ITEM003" = some ("ITEM003", item3) ∧
      ((demo.addItem item3).2.findById "ITEM003").1 = .ok item3 ∧
      OMap.find (demo.addItem item3).2.itemByDescription "Wireless Mouse"
        = some ("Wireless Mouse", item3) ∧
      UMap.size (demo.addItem item3).2.itemById = 2 + 1 :=
  addItem_fresh demo item3 (by decide)

/-- C3: in every state of the manager, `findById(id)` returns the record that `itemById` holds
under `id` when there is one, throws `ItemNotFoundException` exactly when `id` is not a key of
`itemById`, and in both cases leaves the manager as it was. -/
theorem findById_spec (s : StorageManager) (hs : Reachable s) (id : String) :
    (∀ r, (id, r) ∈ s.itemById → (s.findById id).1 = .ok r) ∧
      ((∃ msg, (s.findById id).1 = .error (.ItemNotFoundException msg)) ↔
        id ∉ UMap.keys s.itemById) ∧
      (s.findById id).2 = s := by
  have hinv := inv_of_reachable hs
  refine ⟨?_, ?_, ?_⟩
  · intro r hr
    rw [findById_of_find (UMap.find_of_mem hinv.idKeysNodup hr)]
  · by_cases h : id ∈ UMap.keys s.itemById
    · obtain ⟨p, hp⟩ := exists_find_of_mem h
      rw [findById_of_find hp]
      refine ⟨?_, fun h' => absurd h h'⟩
      rintro ⟨msg, hmsg⟩
      exact Except.noConfusion hmsg
    · rw [findById_of_not_mem h]
      exact ⟨fun _ => h, fun _ => ⟨_, rfl⟩⟩
  · unfold findById
    split <;> rfl

/-- Looking up `ITEM002` in the manager of `main`. -/
theorem findById_spec_witness :
    (demo.findById "ITEM002").1 = .ok item2 ∧ (demo.findById "ITEM002").2 = demo :=
  ⟨(findById_spec demo ⟨_, rfl⟩ "ITEM002").1 item2 (by decide),
    (findById_spec demo ⟨_, rfl⟩ "ITEM002").2.2⟩

/-- C4: `removeItem(id)` throws `ItemNotFoundException` exactly when `id` is not a key of
`itemById`, and whenever it throws, the manager (both indexes) is as before the call. -/
theorem removeItem_throws_iff (s : StorageManager) (id : String) :
    ((∃ msg, (s.removeItem id).1 = .error (.ItemNotFoundException msg)) ↔
        id ∉ UMap.keys s.itemById) ∧
      (∀ e, (s.removeItem id).1 = .error e →
        (s.removeItem id).2 = s ∧
          (s.removeItem id).2.itemById = s.itemById ∧
          (s.removeItem id).2.itemByDescription = s.itemByDescription) := by
  by_cases h : id ∈ UMap.keys s.itemById
  · obtain ⟨p, hp⟩ := exists_find_of_mem h
    rw [removeItem_of_find hp]
    refine ⟨⟨?_, fun h' => absurd h h'⟩, ?_⟩
    · rintro ⟨msg, hmsg⟩
      exact Except.noConfusion hmsg
    · intro e he
      exact Except.noConfusion he
  · rw [removeItem_of_not_mem h]
    exact ⟨⟨fun _ => h, fun _ => ⟨_, rfl⟩⟩, fun _ _ => ⟨rfl, rfl, rfl⟩⟩

/-- Removing the absent `ITEM003` from the manager of `main` throws and changes nothing. -/
theorem removeItem_throws_iff_witness : (demo.removeItem "ITEM003").2 = demo :=
  ((removeItem_throws_iff demo "ITEM003").2
    (.ItemNotFoundException "Item with ID ITEM003 not found.") rfl).1

/-- C5: in every state of the manager and for every key `id` of `itemById`, `removeItem(id)`
returns normally and afterwards `findById(id)` throws `ItemNotFoundException`; for the record
`r` that was stored under `id`, `itemByDescription` has no entry under `r.description`, neither
index holds `r`, and no pair of the listing carries the description of `r`. -/
theorem removeItem_present (s : StorageManager) (hs : Reachable s) (id : String)
    (h : id ∈ UMap.keys s.itemById) :
    (s.removeItem id).1 = .ok () ∧
      (∃ msg, ((s.removeItem id).2.findById id).1 = .error (.ItemNotFoundException msg)) ∧
      (∀ r, (id, r) ∈ s.itemById →
        OMap.find (s.removeItem id).2.itemByDescription r.description = none ∧
          r ∉ primaryRecords (s.removeItem id).2 ∧
          r ∉ secondaryRecords (s.removeItem id).2 ∧
          ∀ p ∈ listedPairs (s.removeItem id).2, p.1 ≠ r.description) := by
  have hinv := inv_of_reachable hs
  have hinv' := inv_removeItem hinv id
  obtain ⟨q, hq⟩ := exists_find_of_mem h
  have hgone : id ∉ UMap.keys (s.removeItem id).2.itemById := by
    rw [removeItem_of_find hq, ← UMap.find_eq_none_iff]
    exact UMap.find_erase_self hinv.idKeysNodup id
  refine ⟨by rw [removeItem_of_find hq], ⟨_, by rw [findById_of_not_mem hgone]⟩, ?_⟩
  intro r hr
  have hqr : q = (id, r) := by
    have := UMap.find_of_mem hinv.idKeysNodup hr
    rw [hq] at this
    exact Option.some.inj this
  have hnone : OMap.find (s.removeItem id).2.itemByDescription r.description = none := by
    rw [removeItem_of_find hq, hqr]
    exact OMap.find_eraseKey_self _ _
  have hkey : ∀ p ∈ (s.removeItem id).2.itemByDescription, p.2.description ≠ r.description := by
    intro p hp e
    have hk : p.1 = r.description := by rw [← hinv'.descKeyed p hp, e]
    exact (OMap.find_none_iff _ _).mp hnone (hk ▸ List.mem_map_of_mem Prod.fst hp)
  refine ⟨hnone, ?_, ?_, ?_⟩
  · intro hmem
    obtain ⟨p, hp, hpr⟩ := List.mem_map.mp hmem
    have : p.1 = id := by rw [← hinv'.idKeyed p hp, hpr, hinv.idKeyed _ hr]
    exact hgone (List.mem_map.mpr ⟨p, hp, this⟩)
  · intro hmem
    obtain ⟨p, hp, hpr⟩ := List.mem_map.mp hmem
    exact hkey p hp (by rw [hpr])
  · intro p hp
    obtain ⟨e, he, hep⟩ := List.mem_map.mp hp
    rw [← hep]
    exact hkey e he

/-- Removing `ITEM001` from the manager of `main`. -/
theorem removeItem_present_witness :
    (demo.removeItem "ITEM001").1 = .ok () ∧
      (∃ msg, ((demo.removeItem "ITEM001").2.findById "ITEM001").1
        = .error (.ItemNotFoundException msg)) ∧
      (∀ r, ("ITEM001", r) ∈ demo.itemById →
        OMap.find (demo.removeItem "ITEM001").2.itemByDescription r.description = none ∧
          r ∉ primaryRecords (demo.removeItem "ITEM001").2 ∧
          r ∉ secondaryRecords (demo.removeItem "ITEM001").2 ∧
          ∀ p ∈ listedPairs (demo.removeItem "ITEM001").2, p.1 ≠ r.description) :=
  removeItem_present demo ⟨_, rfl⟩ "ITEM001" (by decide)

end StorageManager

/-! ## Call sequences -/

theorem UMap.find_erase_of_ne {β : Type} (m : UMap β) {k k' : String} (h : k ≠ k') :
    UMap.find (UMap.erase m k') k = UMap.find m k := by
  induction m with
  | nil => rfl
  | cons q t ih =>
    obtain ⟨a, v⟩ := q
    simp only [UMap.find, UMap.erase] at ih ⊢
    by_cases ha : a = k'
    · subst ha
      have hak : ¬ a = k := fun e => h e.symm
      simp [List.eraseP_cons, hak]
    · by_cases hak : a = k
      · subst hak
        simp [List.eraseP_cons, ha]
      · simp [List.eraseP_cons, ha, hak, ih]

namespace StorageManager

theorem not_mem_of_addItem_succeeded {s : StorageManager} {item : StoredItem}
    (h : succeeded (s.addItem item).1 = true) : item.id ∉ UMap.keys s.itemById := by
  intro hmem
  rw [addItem_of_mem hmem] at h
  exact Bool.noConfusion h

theorem find_step_of_kept {s : StorageManager} {id : String} {item : StoredItem}
    (hf : UMap.find s.itemById id = some (id, item)) (c : Call)
    (hc : removedSince id [c] s = false) :
    UMap.find (step s c).itemById id = some (id, item) := by
  cases c with
  | addItem item' =>
    by_cases h : item'.id ∈ UMap.keys s.itemById
    · simp only [step, addItem_of_mem h]; exact hf
    · simp only [step, addItem_of_not_mem h]
      simp only [UMap.find] at hf ⊢
      rw [List.find?_append, hf]; rfl
  | removeItem id' =>
    by_cases h : id' ∈ UMap.keys s.itemById
    · obtain ⟨q, hq⟩ := exists_find_of_mem h
      have hne : id ≠ id' := by
        rintro rfl
        simp [removedSince, removeItem_of_find hq, succeeded] at hc
      simp only [step, removeItem_of_find hq]
      rw [UMap.find_erase_of_ne _ hne]; exact hf
    · simp only [step, removeItem_of_not_mem h]; exact hf

theorem find_run_of_kept (post : List Call) {s : StorageManager} {id : String}
    {item : StoredItem} (hf : UMap.find s.itemById id = some (id, item))
    (hc : removedSince id post s = false) :
    UMap.find (run post s).itemById id = some (id, item) := by
  induction post generalizing s with
  | nil => exact hf
  | cons c cs ih =>
    simp only [removedSince, Bool.or_eq_false_iff] at hc
    have h1 : removedSince id [c] s = false := by
      simp only [removedSince, Bool.or_false]; exact hc.1
    exact ih (find_step_of_kept hf c h1) hc.2

/-- C6: run any sequence of `addItem`/`removeItem` calls on an empty manager; if the call
`addItem(item)` in it returned normally and no later `removeItem(item.id)` returned normally,
then `findById(item.id)` on the final manager returns a record with the description and the
location of `item` (the item itself). -/
theorem findById_round_trip (pre post : List Call) (item : StoredItem)
    (hadd : succeeded ((run pre empty).addItem item).1 = true)
    (hkeep : removedSince item.id post (run (pre ++ [.addItem item]) empty) = false) :
    ((run (pre ++ .addItem item :: post) empty).findById item.id).1 = .ok item ∧
      ∃ r, ((run (pre ++ .addItem item :: post) empty).findById item.id).1 = .ok r ∧
        r.description = item.description ∧ r.location = item.location := by
  have hnew := not_mem_of_addItem_succeeded hadd
  have hmid : run (pre ++ [.addItem item]) empty = ((run pre empty).addItem item).2 := by
    rw [run_append]; rfl
  have hf0 : UMap.find (run (pre ++ [.addItem item]) empty).itemById item.id
      = some (item.id, item) := by
    rw [hmid, addItem_of_not_mem hnew]
    exact UMap.find_append_singleton hnew item
  have hsplit : run (pre ++ .addItem item :: post) empty
      = run post (run (pre ++ [.addItem item]) empty) := by
    rw [← run_append, List.append_assoc]; rfl
  have hf := find_run_of_kept post hf0 hkeep
  rw [← hsplit] at hf
  have hres := findById_of_find hf
  exact ⟨by rw [hres], item, by rw [hres], rfl, rfl⟩

/-- In `main`, `ITEM002` is added after `ITEM001`; the rejected duplicate and the failed
removal of `ITEM003` that follow do not disturb it. -/
theorem findById_round_trip_witness :
    ((run ([.addItem item1] ++ .addItem item2 ::
        [.addItem ⟨"ITEM001", "Wireless Mouse", "Aisle 4, Shelf 2"⟩, .removeItem "ITEM003"])
        empty).findById "ITEM002").1 = .ok item2 :=
  (findById_round_trip [.addItem item1]
    [.addItem ⟨"ITEM001", "Wireless Mouse", "Aisle 4, Shelf 2"⟩, .removeItem "ITEM003"]
    item2 rfl rfl).1

end StorageManager

/-! ## Invariants of the specification -/

namespace StorageManager

theorem not_holdsDescription {s : StorageManager} {d : String}
    (h : holdsDescription s d = false) : ∀ p ∈ s.itemById, p.2.description ≠ d := by
  intro p hp e
  have : holdsDescription s d = true := by
    simp only [holdsDescription, List.any_eq_true]
    exact ⟨p, hp, by simpa [StoredItem.getDescription] using e⟩
  rw [h] at this
  exact Bool.noConfusion this

theorem invDistinct_empty : InvDistinct empty :=
  ⟨by simp [empty], by simp [empty]⟩

theorem invDistinct_addItem {s : StorageManager} (hd : InvDistinct s) (item : StoredItem)
    (hc : (succeeded (s.addItem item).1 && holdsDescription s item.getDescription) = false) :
    InvDistinct (s.addItem item).2 := by
  by_cases h : item.id ∈ UMap.keys s.itemById
  · rw [addItem_of_mem h]; exact hd
  · rw [addItem_of_not_mem h] at hc ⊢
    have hheld : holdsDescription s item.description = false := by
      simpa [succeeded, StoredItem.getDescription] using hc
    have hfree := not_holdsDescription hheld
    constructor
    · intro p hp
      rcases List.mem_append.mp hp with hp | hp
      · exact OMap.mem_assign_of_mem _ (hd.idInDesc p hp) (hfree p hp)
      · rw [List.mem_singleton] at hp
        rw [hp]
        exact OMap.mem_assign_self _ _ _
    · simp only [List.map_append, List.map_cons, List.map_nil]
      refine List.Nodup.append hd.descNodup (List.nodup_singleton _) ?_
      intro d hd₁ hd₂
      rw [List.mem_singleton] at hd₂
      obtain ⟨p, hp, hpd⟩ := List.mem_map.mp hd₁
      exact hfree p hp (by rw [hpd, hd₂])

theorem invDistinct_removeItem {s : StorageManager} (hs : Inv s) (hd : InvDistinct s)
    (id : String) : InvDistinct (s.removeItem id).2 := by
  by_cases h : id ∈ UMap.keys s.itemById
  · obtain ⟨q, hq⟩ := exists_find_of_mem h
    obtain ⟨hqm, hqk⟩ := UMap.find_some hq
    rw [removeItem_of_find hq]
    constructor
    · intro p hp
      obtain ⟨hpm, hpk⟩ := (UMap.mem_erase hs.idKeysNodup _ _).mp hp
      refine (OMap.mem_eraseKey _ _ _).mpr ⟨hd.idInDesc p hpm, ?_⟩
      intro e
      have hpq : p = q := List.inj_on_of_nodup_map hd.descNodup hpm hqm e
      exact hpk (by rw [hpq, hqk])
    · have hsub : List.Sublist (UMap.erase s.itemById id) s.itemById := List.eraseP_sublist _
      exact hd.descNodup.sublist (hsub.map _)
  · rw [removeItem_of_not_mem h]; exact hd

theorem invDistinct_run (calls : List Call) {s : StorageManager} (hs : Inv s)
    (hd : InvDistinct s) (hc : collisionFree calls s = true) : InvDistinct (run calls s) := by
  induction calls generalizing s with
  | nil => exact hd
  | cons c cs ih =>
    simp only [collisionFree, Bool.and_eq_true] at hc
    refine ih (inv_step hs c) ?_ hc.2
    cases c with
    | addItem item =>
      have h1 := hc.1
      simp only [Bool.not_eq_true'] at h1
      exact invDistinct_addItem hd item h1
    | removeItem id => exact invDistinct_removeItem hs hd id

theorem secondary_subset_primary {s : StorageManager} (hs : Inv s) :
    ∀ r ∈ secondaryRecords s, r ∈ primaryRecords s := by
  intro r hr
  obtain ⟨p, hp, hpr⟩ := List.mem_map.mp hr
  exact List.mem_map.mpr ⟨_, hs.descInId p hp, hpr⟩

theorem primary_subset_secondary {s : StorageManager} (hd : InvDistinct s) :
    ∀ r ∈ primaryRecords s, r ∈ secondaryRecords s := by
  intro r hr
  obtain ⟨p, hp, hpr⟩ := List.mem_map.mp hr
  exact List.mem_map.mpr ⟨_, hd.idInDesc p hp, hpr⟩

/-- C8: in every state reached from an empty manager by `addItem`/`removeItem` calls, the
records of `itemById` have pairwise different identifiers, each stored under its own
identifier; and `addItem` of an item whose identifier one of them has throws
`DuplicateItemException` and leaves the number of records unchanged. -/
theorem identifiers_unique (s : StorageManager) (hs : Reachable s) :
    (List.map StoredItem.getId (primaryRecords s)).Nodup ∧
      (∀ p ∈ s.itemById, p.2.getId = p.1) ∧
      (∀ item : StoredItem, item.getId ∈ List.map StoredItem.getId (primaryRecords s) →
        (∃ msg, (s.addItem item).1 = .error (.DuplicateItemException msg)) ∧
          UMap.size (s.addItem item).2.itemById = UMap.size s.itemById) := by
  have hinv := inv_of_reachable hs
  have hkeys : List.map StoredItem.getId (primaryRecords s) = UMap.keys s.itemById := by
    simp only [primaryRecords, UMap.keys, List.map_map]
    exact List.map_congr_left (fun p hp => hinv.idKeyed p hp)
  refine ⟨hkeys ▸ hinv.idKeysNodup, hinv.idKeyed, ?_⟩
  intro item hitem
  rw [hkeys] at hitem
  rw [addItem_of_mem hitem]
  exact ⟨⟨_, rfl⟩, rfl⟩

/-- At the manager of `main`, a second record with identifier `ITEM001` is rejected and two
records remain. -/
theorem identifiers_unique_witness :
    (∃ msg, (demo.addItem ⟨"ITEM001", "Wireless Mouse", "Aisle 4, Shelf 2"⟩).1
        = .error (.DuplicateItemException msg)) ∧
      UMap.size (demo.addItem ⟨"ITEM001", "Wireless Mouse", "Aisle 4, Shelf 2"⟩).2.itemById
        = UMap.size demo.itemById :=
  (identifiers_unique demo ⟨_, rfl⟩).2.2 ⟨"ITEM001", "Wireless Mouse", "Aisle 4, Shelf 2"⟩
    (by decide)

/-- C9: in every state reached from an empty manager by `addItem`/`removeItem` calls, the
pairs listed by `listItemsByDescription` are in non-decreasing order of description: no pair
has a description that is less than the description of a pair listed before it. -/
theorem listing_sorted (s : StorageManager) (hs : Reachable s) :
    List.Pairwise (fun p q => strLess q.1 p.1 = false) (listedPairs s) := by
  have hinv := inv_of_reachable hs
  simp only [listedPairs, List.pairwise_map, StoredItem.getDescription]
  have hsorted : List.Pairwise (fun p q : String × StoredItem => strLess p.1 q.1 = true)
      s.itemByDescription := hinv.descSorted
  refine (List.Pairwise.and_mem.mp hsorted).imp ?_
  rintro p q ⟨hp, hq, hlt⟩
  rw [hinv.descKeyed p hp, hinv.descKeyed q hq]
  exact strLess_asymm hlt

/-- The listing of the manager of `main`: "Airpods" comes before "Wireless Mouse". -/
theorem listing_sorted_witness :
    List.Pairwise (fun p q => strLess q.1 p.1 = false)
      [("Airpods", "Aisle 1, Shelf 7"), ("Wireless Mouse", "Aisle 2, Shelf 3")] :=
  listing_sorted demo ⟨_, rfl⟩

/-- C10: `listItemsByDescription` returns normally and leaves the manager as it was, so a
second call writes the same text and lists the same pairs; on an empty manager it lists no
pair and writes the heading only. -/
theorem listItemsByDescription_pure (s : StorageManager) :
    (∃ out, s.listItemsByDescription.1 = .ok out) ∧
      s.listItemsByDescription.2 = s ∧
      s.listItemsByDescription.2.listItemsByDescription.1 = s.listItemsByDescription.1 ∧
      listedPairs s.listItemsByDescription.2 = listedPairs s ∧
      listedPairs empty = [] ∧
      empty.listItemsByDescription.1 = .ok "Items in Description Order:\n" :=
  ⟨⟨_, rfl⟩, rfl, rfl, rfl, rfl, rfl⟩

end StorageManager

/-! ## The demonstration of `main` -/

namespace StorageManager

/-- C11: the run of `main`. On an empty manager `addItem(item1)` and `addItem(item2)` return
normally; `addItem(duplicate)` throws `DuplicateItemException` and two records remain;
`findById("ITEM002")` returns the record described "Airpods" at "Aisle 1, Shelf 7";
`removeItem("ITEM003")` throws `ItemNotFoundException` and two records remain; the listing is
"Airpods" then "Wireless Mouse", each with its location. -/
theorem main_scenario :
    (empty.addItem item1).1 = .ok () ∧
      ((empty.addItem item1).2.addItem item2).1 = .ok () ∧
      ((empty.addItem item1).2.addItem item2).2 = demo ∧
      (demo.addItem duplicate).1
        = .error (.DuplicateItemException "Item with ID ITEM001 already exists.") ∧
      (demo.addItem duplicate).2 = demo ∧
      UMap.size (demo.addItem duplicate).2.itemById = 2 ∧
      (demo.findById "ITEM002").1
        = .ok ⟨"ITEM002", "Airpods", "Aisle 1, Shelf 7"⟩ ∧
      (demo.findById "ITEM002").2 = demo ∧
      (demo.removeItem "ITEM003").1
        = .error (.ItemNotFoundException "Item with ID ITEM003 not found.") ∧
      (demo.removeItem "ITEM003").2 = demo ∧
      UMap.size (demo.removeItem "ITEM003").2.itemById = 2 ∧
      listedPairs demo
        = [("Airpods", "Aisle 1, Shelf 7"), ("Wireless Mouse", "Aisle 2, Shelf 3")] ∧
      demo.listItemsByDescription.1
        = .ok ("Items in Description Order:\n" ++ "- Airpods: Aisle 1, Shelf 7\n"
            ++ "- Wireless Mouse: Aisle 2, Shelf 3\n") :=
  ⟨rfl, rfl, rfl, rfl, rfl, rfl, rfl, rfl, rfl, rfl, rfl, rfl, rfl⟩

end StorageManager

/-! ## Diagnostics, frame and inverse -/

theorem OMap.erase_assign_of_not_mem {β : Type} {m : OMap β} {k : String}
    (h : k ∉ OMap.keys m) (v : β) : OMap.erase (OMap.assign m k v) k = m := by
  have hkk : strEquiv k k = true := (strEquiv_iff_eq k k).mpr rfl
  have hrest : ∀ t : OMap β, k ∉ OMap.keys t →
      List.filter (fun p : String × β => !strEquiv p.1 k) t = t := by
    intro t ht
    apply List.filter_eq_self.mpr
    intro p hp
    have hne : p.1 ≠ k := fun e => ht (e ▸ List.mem_map_of_mem Prod.fst hp)
    have : strEquiv p.1 k = false := by
      rw [← Bool.not_eq_true, strEquiv_iff_eq]; exact hne
    simp [this]
  induction m with
  | nil => simp [OMap.assign, OMap.erase, hkk]
  | cons q t ih =>
    obtain ⟨k', v'⟩ := q
    have hk' : k ≠ k' := fun e => h (e ▸ List.mem_cons_self _ _)
    have ht : k ∉ OMap.keys t := fun e => h (List.mem_cons_of_mem _ e)
    have hne : strEquiv k' k = false := by
      rw [← Bool.not_eq_true, strEquiv_iff_eq]; exact fun e => hk' e.symm
    simp only [OMap.assign]
    split_ifs with h₁ h₂
    · have := ih ht
      simp only [OMap.erase] at this ⊢
      simp [List.filter_cons, hne, this]
    · simp only [OMap.erase]
      simp [List.filter_cons, hne, hkk, hrest t ht]
    · exact absurd (strEquiv_of_not_less (by simpa using h₁) (by simpa using h₂)) (Ne.symm hk')

theorem UMap.erase_append_singleton {β : Type} {m : UMap β} {k : String}
    (h : k ∉ UMap.keys m) (v : β) : UMap.erase (m ++ [(k, v)]) k = m := by
  have hno : ∀ b ∈ m, ¬ ((fun p : String × β => p.1 == k) b = true) := by
    intro b hb e
    exact h (List.mem_map.mpr ⟨b, hb, by simpa using e⟩)
  simp only [UMap.erase]
  rw [List.eraseP_append_right _ hno]
  simp [List.eraseP_cons]

theorem UMap.find_append_of_ne {β : Type} (m : UMap β) {k k' : String} (h : k ≠ k') (v : β) :
    UMap.find (m ++ [(k', v)]) k = UMap.find m k := by
  have hk : ¬ k' = k := fun e => h e.symm
  simp [UMap.find, List.find?_append, hk]

namespace StorageManager

theorem not_mem_of_removeItem_succeeded {s : StorageManager} {id : String}
    (h : succeeded (s.removeItem id).1 = true) : id ∈ UMap.keys s.itemById := by
  by_contra hmem
  rw [removeItem_of_not_mem hmem] at h
  exact Bool.noConfusion h

theorem cString_of_hasNoNul {t : String} (h : hasNoNul t = true) : cString t = t := by
  have hall : ∀ c ∈ t.data, (c != Char.ofNat 0) = true := by
    simpa [hasNoNul, List.all_eq_true] using h
  have : List.takeWhile (fun c => c != Char.ofNat 0) t.data = t.data :=
    List.takeWhile_eq_self_iff.mpr hall
  simp only [cString, this]

theorem hasNoNul_append (a b : String) :
    hasNoNul (a ++ b) = (hasNoNul a && hasNoNul b) := by
  simp [hasNoNul, String.data_append, List.all_append]

theorem cString_already_exists {id : String} (h : hasNoNul id = true) :
    cString ("Item with ID " ++ id ++ " already exists.")
      = "Item with ID " ++ id ++ " already exists." := by
  apply cString_of_hasNoNul
  rw [hasNoNul_append, hasNoNul_append, h]
  decide

theorem cString_not_found {id : String} (h : hasNoNul id = true) :
    cString ("Item with ID " ++ id ++ " not found.")
      = "Item with ID " ++ id ++ " not found." := by
  apply cString_of_hasNoNul
  rw [hasNoNul_append, hasNoNul_append, h]
  decide

theorem findById_congr {s t : StorageManager} {k : String}
    (h : UMap.find s.itemById k = UMap.find t.itemById k) :
    (s.findById k).1 = (t.findById k).1 := by
  simp only [findById, h]
  cases UMap.find t.itemById k <;> rfl

/-- C13, as the claim states it, fails for an identifier that contains a NUL character: the
message read through `what()` ends at that character. For the identifier `a`, NUL, `b` the
`ItemNotFoundException` of `findById` and of `removeItem` and the `DuplicateItemException` of
`addItem` all read "Item with ID a", which is not the full text with the identifier. -/
theorem exception_what_truncated :
    (∃ e, (empty.findById nulId).1 = .error e ∧ e.what = "Item with ID a" ∧
        e.what ≠ "Item with ID " ++ nulId ++ " not found.") ∧
      (∃ e, (empty.removeItem nulId).1 = .error e ∧ e.what = "Item with ID a" ∧
        e.what ≠ "Item with ID " ++ nulId ++ " not found.") ∧
      (∃ e, ((empty.addItem nulItem).2.addItem nulItem).1 = .error e ∧
        e.what = "Item with ID a" ∧
        e.what ≠ "Item with ID " ++ nulItem.getId ++ " already exists.") :=
  ⟨⟨_, rfl, rfl, by decide⟩, ⟨_, rfl, rfl, by decide⟩, ⟨_, rfl, rfl, by decide⟩⟩

/-- C13, amended: `addItem(item)` throws only a `DuplicateItemException`, `findById(id)` and
`removeItem(id)` throw only an `ItemNotFoundException`, and they throw when the identifier is
held, respectively absent. The message read through `what()` is the text
"Item with ID <identifier> already exists.", respectively "Item with ID <identifier> not found.",
up to its first NUL character; so it is exactly that text, with the whole identifier, whenever
the identifier contains no NUL character. -/
theorem exception_what_carries_id (s : StorageManager) (item : StoredItem) (id : String) :
    ((∀ e, (s.addItem item).1 = .error e →
          e.isDuplicateItem = true ∧
            e.what = cString ("Item with ID " ++ item.getId ++ " already exists.") ∧
            (hasNoNul item.getId = true →
              e.what = "Item with ID " ++ item.getId ++ " already exists.")) ∧
        (item.getId ∈ UMap.keys s.itemById → ∃ e, (s.addItem item).1 = .error e)) ∧
      ((∀ e, (s.findById id).1 = .error e →
          e.isItemNotFound = true ∧
            e.what = cString ("Item with ID " ++ id ++ " not found.") ∧
            (hasNoNul id = true → e.what = "Item with ID " ++ id ++ " not found.")) ∧
        (id ∉ UMap.keys s.itemById → ∃ e, (s.findById id).1 = .error e)) ∧
      ((∀ e, (s.removeItem id).1 = .error e →
          e.isItemNotFound = true ∧
            e.what = cString ("Item with ID " ++ id ++ " not found.") ∧
            (hasNoNul id = true → e.what = "Item with ID " ++ id ++ " not found.")) ∧
        (id ∉ UMap.keys s.itemById → ∃ e, (s.removeItem id).1 = .error e)) := by
  refine ⟨⟨?_, fun h => ⟨_, by rw [addItem_of_mem h]⟩⟩,
    ⟨?_, fun h => ⟨_, by rw [findById_of_not_mem h]⟩⟩,
    ⟨?_, fun h => ⟨_, by rw [removeItem_of_not_mem h]⟩⟩⟩
  · intro e he
    by_cases h : item.id ∈ UMap.keys s.itemById
    · rw [addItem_of_mem h] at he
      rw [← Except.error.inj he]
      exact ⟨rfl, rfl, fun hn => cString_already_exists hn⟩
    · rw [addItem_of_not_mem h] at he
      exact Except.noConfusion he
  · intro e he
    by_cases h : id ∈ UMap.keys s.itemById
    · obtain ⟨p, hp⟩ := exists_find_of_mem h
      rw [findById_of_find hp] at he
      exact Except.noConfusion he
    · rw [findById_of_not_mem h] at he
      rw [← Except.error.inj he]
      exact ⟨rfl, rfl, fun hn => cString_not_found hn⟩
  · intro e he
    by_cases h : id ∈ UMap.keys s.itemById
    · obtain ⟨p, hp⟩ := exists_find_of_mem h
      rw [removeItem_of_find hp] at he
      exact Except.noConfusion he
    · rw [removeItem_of_not_mem h] at he
      rw [← Except.error.inj he]
      exact ⟨rfl, rfl, fun hn => cString_not_found hn⟩

/-- The messages read at `main`'s manager for `duplicate` and the absent `ITEM003`, whose
identifiers contain no NUL character. -/
theorem exception_what_carries_id_witness :
    (∀ e, (demo.addItem duplicate).1 = .error e →
        e.what = "Item with ID ITEM001 already exists.") ∧
      (∀ e, (demo.findById "ITEM003").1 = .error e →
        e.what = "Item with ID ITEM003 not found.") ∧
      (∀ e, (demo.removeItem "ITEM003").1 = .error e →
        e.what = "Item with ID ITEM003 not found.") ∧
      (∃ e, (demo.addItem duplicate).1 = .error e) ∧
      (∃ e, (demo.findById "ITEM003").1 = .error e) ∧
      (∃ e, (demo.removeItem "ITEM003").1 = .error e) :=
  ⟨fun e he => ((exception_what_carries_id demo duplicate "ITEM003").1.1 e he).2.2 rfl,
    fun e he => ((exception_what_carries_id demo duplicate "ITEM003").2.1.1 e he).2.2 rfl,
    fun e he => ((exception_what_carries_id demo duplicate "ITEM003").2.2.1 e he).2.2 rfl,
    (exception_what_carries_id demo duplicate "ITEM003").1.2 (by decide),
    (exception_what_carries_id demo duplicate "ITEM003").2.1.2 (by decide),
    (exception_what_carries_id demo duplicate "ITEM003").2.2.2 (by decide)⟩

/-- C17: a call `addItem(item)` or `removeItem(id)` that returns normally leaves the outcome of
`findById(other)`, the record returned or the `ItemNotFoundException` thrown, as it was, for
every identifier `other` different from the one added or removed. -/
theorem findById_frame (s : StorageManager) (item : StoredItem) (id other : String) :
    (succeeded (s.addItem item).1 = true → other ≠ item.getId →
        ((s.addItem item).2.findById other).1 = (s.findById other).1) ∧
      (succeeded (s.removeItem id).1 = true → other ≠ id →
        ((s.removeItem id).2.findById other).1 = (s.findById other).1) := by
  constructor
  · intro hok hne
    have hnew := not_mem_of_addItem_succeeded hok
    rw [addItem_of_not_mem hnew]
    exact findById_congr (UMap.find_append_of_ne s.itemById hne item)
  · intro hok hne
    obtain ⟨p, hp⟩ := exists_find_of_mem (not_mem_of_removeItem_succeeded hok)
    rw [removeItem_of_find hp]
    exact findById_congr (UMap.find_erase_of_ne s.itemById hne)

/-- Adding `item3` to, or removing `ITEM001` from, the manager of `main` does not change what
`findById("ITEM002")` returns. -/
theorem findById_frame_witness :
    ((demo.addItem item3).2.findById "ITEM002").1 = .ok item2 ∧
      ((demo.removeItem "ITEM001").2.findById "ITEM002").1 = .ok item2 :=
  ⟨(findById_frame demo item3 "ITEM001" "ITEM002").1 rfl (by decide),
    (findById_frame demo item3 "ITEM001" "ITEM002").2 rfl (by decide)⟩

/-- C18: when the identifier of the item is not a key of `itemById` and its description is
not a key of `itemByDescription`, `addItem(item)` and then `removeItem(item.id)` both return
normally and leave the manager as it was before the two calls: same `itemById`, same
`itemByDescription`, same listing. -/
theorem removeItem_undoes_addItem (s : StorageManager) (item : StoredItem)
    (hid : item.getId ∉ UMap.keys s.itemById)
    (hdesc : item.getDescription ∉ OMap.keys s.itemByDescription) :
    (s.addItem item).1 = .ok () ∧
      ((s.addItem item).2.removeItem item.getId).1 = .ok () ∧
      ((s.addItem item).2.removeItem item.getId).2 = s ∧
      ((s.addItem item).2.removeItem item.getId).2.itemById = s.itemById ∧
      ((s.addItem item).2.removeItem item.getId).2.itemByDescription = s.itemByDescription ∧
      listedPairs ((s.addItem item).2.removeItem item.getId).2 = listedPairs s := by
  have hid' : item.id ∉ UMap.keys s.itemById := hid
  have hdesc' : item.description ∉ OMap.keys s.itemByDescription := hdesc
  have hfind : UMap.find (s.addItem item).2.itemById item.getId = some (item.id, item) := by
    rw [addItem_of_not_mem hid']
    exact UMap.find_append_singleton hid' item
  have hstate : ((s.addItem item).2.removeItem item.getId).2 = s := by
    rw [removeItem_of_find hfind, addItem_of_not_mem hid']
    show StorageManager.mk _ _ = s
    rw [StoredItem.getId, UMap.erase_append_singleton hid' item,
      OMap.erase_assign_of_not_mem hdesc' item]
  refine ⟨by rw [addItem_of_not_mem hid'], by rw [removeItem_of_find hfind], hstate, ?_, ?_, ?_⟩
  · rw [hstate]
  · rw [hstate]
  · rw [hstate]

/-- A record with a new identifier and a new description, added to the manager of `main` and
removed again. -/
theorem removeItem_undoes_addItem_witness :
    ((demo.addItem ⟨"ITEM003", "Keyboard", "Aisle 3, Shelf 1"⟩).2.removeItem "ITEM003").2
      = demo :=
  (removeItem_undoes_addItem demo ⟨"ITEM003", "Keyboard", "Aisle 3, Shelf 1"⟩
    (by decide) (by decide)).2.2.1

end StorageManager

/-! ## The two indexes compared -/

theorem List.length_lt_of_nodup_subset {α : Type} {l₁ l₂ : List α} {a : α}
    (hnd : l₁.Nodup) (hsub : ∀ x ∈ l₁, x ∈ l₂) (ha : a ∈ l₂) (hna : a ∉ l₁) :
    l₁.length < l₂.length := by
  have hnd' : (a :: l₁).Nodup := List.nodup_cons.mpr ⟨hna, hnd⟩
  have hsub' : a :: l₁ ⊆ l₂ := by
    intro x hx
    rcases List.mem_cons.mp hx with h | h
    · exact h ▸ ha
    · exact hsub x h
  have := (List.subperm_of_subset hnd' hsub').length_le
  simpa using this

theorem List.filter_key_eq_singleton {β : Type} {l : List (String × β)}
    (hnd : (l.map Prod.fst).Nodup) {k : String} {v : β} (h : (k, v) ∈ l) :
    l.filter (fun p => p.1 == k) = [(k, v)] := by
  induction l with
  | nil => simp at h
  | cons q t ih =>
    obtain ⟨k', v'⟩ := q
    simp only [List.map_cons, List.nodup_cons] at hnd
    by_cases hk : k' = k
    · subst hk
      have hnot : ∀ p ∈ t, p.1 ≠ k' := fun p hp e =>
        hnd.1 (e ▸ List.mem_map_of_mem Prod.fst hp)
      have hv : v' = v := by
        rcases List.mem_cons.mp h with h | h
        · exact (Prod.mk.inj h).2.symm
        · exact absurd rfl (hnot _ h)
      have hnil : List.filter (fun p : String × β => p.1 == k') t = [] := by
        apply List.filter_eq_nil_iff.mpr
        intro p hp
        simpa using hnot p hp
      simp [List.filter_cons, hnil, hv]
    · have ht : (k, v) ∈ t := by
        rcases List.mem_cons.mp h with h | h
        · exact absurd (Prod.mk.inj h).1.symm hk
        · exact h
      simp [List.filter_cons, hk, ih hnd.2 ht]

namespace StorageManager

theorem secondaryRecords_nodup {s : StorageManager} (hs : Inv s) :
    (secondaryRecords s).Nodup := by
  have hkeys : (s.itemByDescription.map Prod.fst).Nodup :=
    OMap.nodup_keys_of_sorted hs.descSorted
  refine List.Nodup.map_on ?_ (List.Nodup.of_map _ hkeys)
  intro x hx y hy hxy
  refine Prod.ext ?_ hxy
  rw [← hs.descKeyed x hx, ← hs.descKeyed y hy, hxy]

theorem primaryRecords_nodup {s : StorageManager} (hs : Inv s) :
    (primaryRecords s).Nodup := by
  refine List.Nodup.map_on ?_ (List.Nodup.of_map _ hs.idKeysNodup)
  intro x hx y hy hxy
  refine Prod.ext ?_ hxy
  rw [← hs.idKeyed x hx, ← hs.idKeyed y hy, hxy]

theorem listedPairs_eq_map (s : StorageManager) :
    listedPairs s
      = (secondaryRecords s).map (fun r => (r.getDescription, r.getLocation)) := by
  simp [listedPairs, secondaryRecords, List.map_map, Function.comp_def]

theorem listedPairs_length_le {s : StorageManager} (hs : Inv s) :
    (listedPairs s).length ≤ UMap.size s.itemById := by
  have h := (List.subperm_of_subset (secondaryRecords_nodup hs)
    (fun r hr => secondary_subset_primary hs r hr)).length_le
  simpa [listedPairs, secondaryRecords, primaryRecords, UMap.size] using h

theorem mem_listedPairs_description {s : StorageManager} (hs : Inv s) {d : String}
    (hd : d ∉ OMap.keys s.itemByDescription) : ∀ q ∈ listedPairs s, q.1 ≠ d := by
  intro q hq e
  obtain ⟨p, hp, hpq⟩ := List.mem_map.mp hq
  have hk : p.1 = d := by
    rw [← hs.descKeyed p hp, ← e, ← hpq]; rfl
  exact hd (hk ▸ List.mem_map_of_mem Prod.fst hp)

/-- C14: in every state reached from an empty manager by `addItem`/`removeItem` calls, every
entry of `itemByDescription` is keyed by the description of its record, and that record is the
one `itemById` stores under its identifier; so every listed pair is the description and
location of a record that `findById` returns, and the listing has at most as many pairs as
`itemById` has records. -/
theorem secondary_entries_sound (s : StorageManager) (hs : Reachable s) :
    (∀ p ∈ s.itemByDescription,
        p.2.getDescription = p.1 ∧
          UMap.find s.itemById p.2.getId = some (p.2.getId, p.2)) ∧
      (∀ q ∈ listedPairs s,
        ∃ r, (s.findById r.getId).1 = .ok r ∧ q = (r.getDescription, r.getLocation)) ∧
      (listedPairs s).length ≤ UMap.size s.itemById := by
  have hinv := inv_of_reachable hs
  have hfind : ∀ p ∈ s.itemByDescription,
      UMap.find s.itemById p.2.getId = some (p.2.getId, p.2) :=
    fun p hp => UMap.find_of_mem hinv.idKeysNodup (hinv.descInId p hp)
  refine ⟨fun p hp => ⟨hinv.descKeyed p hp, hfind p hp⟩, ?_, listedPairs_length_le hinv⟩
  intro q hq
  obtain ⟨p, hp, hpq⟩ := List.mem_map.mp hq
  exact ⟨p.2, by rw [findById_of_find (hfind p hp)], hpq.symm⟩

/-- After `addItem(item1)` and `addItem(item3)`, which share a description, the single listed
pair is that of `item3`, which `findById` returns, and `itemById` holds two records. -/
theorem secondary_entries_sound_witness :
    (∀ q ∈ listedPairs (run [.addItem item1, .addItem item3] empty),
        ∃ r, ((run [.addItem item1, .addItem item3] empty).findById r.getId).1 = .ok r ∧
          q = (r.getDescription, r.getLocation)) ∧
      (listedPairs (run [.addItem item1, .addItem item3] empty)).length ≤ 2 :=
  (secondary_entries_sound (run [.addItem item1, .addItem item3] empty) ⟨_, rfl⟩).2

/-- C15: for every sequence of `addItem`/`removeItem` calls on an empty manager in which no
`addItem` that returned normally used a description that a record of `itemById` had at that
moment, the two indexes hold the same set of records, and the listing consists of exactly one
pair, description and location, for each record of `itemById`. -/
theorem sameRecords_of_collisionFree (calls : List Call)
    (hc : collisionFree calls empty = true) :
    SameRecords (run calls empty) ∧
      List.Perm (listedPairs (run calls empty))
        ((primaryRecords (run calls empty)).map
          (fun r => (r.getDescription, r.getLocation))) ∧
      (listedPairs (run calls empty)).length = UMap.size (run calls empty).itemById := by
  have hinv := inv_run calls inv_empty
  have hd := invDistinct_run calls inv_empty invDistinct_empty hc
  have hperm : List.Perm (secondaryRecords (run calls empty))
      (primaryRecords (run calls empty)) :=
    (List.perm_ext_iff_of_nodup (secondaryRecords_nodup hinv) (primaryRecords_nodup hinv)).mpr
      (fun r => ⟨secondary_subset_primary hinv r, primary_subset_secondary hd r⟩)
  refine ⟨⟨primary_subset_secondary hd, secondary_subset_primary hinv⟩, ?_, ?_⟩
  · rw [listedPairs_eq_map]
    exact hperm.map _
  · have := hperm.length_eq
    simpa [listedPairs, secondaryRecords, primaryRecords, UMap.size] using this

/-- The calls of `main` with the removal of `ITEM001` appended: one record and one listed pair
remain. -/
theorem sameRecords_of_collisionFree_witness :
    SameRecords (run [.addItem item1, .addItem item2, .addItem duplicate,
        .removeItem "ITEM003", .removeItem "ITEM001"] empty) ∧
      (listedPairs (run [.addItem item1, .addItem item2, .addItem duplicate,
        .removeItem "ITEM003", .removeItem "ITEM001"] empty)).length = 1 :=
  ⟨(sameRecords_of_collisionFree [.addItem item1, .addItem item2, .addItem duplicate,
      .removeItem "ITEM003", .removeItem "ITEM001"] rfl).1,
    (sameRecords_of_collisionFree [.addItem item1, .addItem item2, .addItem duplicate,
      .removeItem "ITEM003", .removeItem "ITEM001"] rfl).2.2⟩

end StorageManager

/-! ## Records that share a description -/

namespace StorageManager

theorem hides_survivor {s : StorageManager} (hs : Inv s) {A B : StoredItem}
    (hA : (A.id, A) ∈ s.itemById) (hB : (B.id, B) ∈ s.itemById) (hne : A.id ≠ B.id)
    (hdesc : A.description = B.description) :
    (s.removeItem A.id).1 = .ok () ∧
      OMap.find (s.removeItem A.id).2.itemByDescription B.description = none ∧
      ((s.removeItem A.id).2.findById B.id).1 = .ok B ∧
      B ∉ secondaryRecords (s.removeItem A.id).2 ∧
      ∀ q ∈ listedPairs (s.removeItem A.id).2, q.1 ≠ B.description := by
  have hfA := UMap.find_of_mem hs.idKeysNodup hA
  have hfB := UMap.find_of_mem hs.idKeysNodup hB
  have hinv' := inv_removeItem hs A.id
  have hnone : OMap.find (s.removeItem A.id).2.itemByDescription B.description = none := by
    rw [removeItem_of_find hfA, ← hdesc]
    exact OMap.find_eraseKey_self _ _
  have hkey := (OMap.find_none_iff _ _).mp hnone
  have hfB' : UMap.find (s.removeItem A.id).2.itemById B.id = some (B.id, B) := by
    rw [removeItem_of_find hfA]
    show UMap.find (UMap.erase s.itemById A.id) B.id = _
    rw [UMap.find_erase_of_ne _ (Ne.symm hne)]
    exact hfB
  refine ⟨by rw [removeItem_of_find hfA], hnone, by rw [findById_of_find hfB'], ?_,
    mem_listedPairs_description hinv' hkey⟩
  intro hmem
  obtain ⟨p, hp, hpB⟩ := List.mem_map.mp hmem
  have hk : p.1 = B.description := by rw [← hinv'.descKeyed p hp, hpB]
  exact hkey (hk ▸ List.mem_map_of_mem Prod.fst hp)

/-- C12: in every state of the manager that holds a record `A`, for every record `B` with an
identifier that is not held and the description of `A`, `addItem(B)` returns normally; the
entry of `itemByDescription` for that description then holds `B` and no entry holds `A`;
`itemById` holds both `A` and `B`; the listing has exactly one pair with that description,
carrying the location of `B`, and has fewer pairs than `itemById` has records. -/
theorem addItem_description_collision (s : StorageManager) (hs : Reachable s)
    (A B : StoredItem) (hA : (A.getId, A) ∈ s.itemById)
    (hB : B.getId ∉ UMap.keys s.itemById) (hdesc : B.getDescription = A.getDescription) :
    (s.addItem B).1 = .ok () ∧
      OMap.find (s.addItem B).2.itemByDescription A.getDescription
        = some (A.getDescription, B) ∧
      A ∉ secondaryRecords (s.addItem B).2 ∧
      (A.getId, A) ∈ (s.addItem B).2.itemById ∧
      (B.getId, B) ∈ (s.addItem B).2.itemById ∧
      (listedPairs (s.addItem B).2).filter (fun q => q.1 == A.getDescription)
        = [(A.getDescription, B.getLocation)] ∧
      (listedPairs (s.addItem B).2).length < UMap.size (s.addItem B).2.itemById := by
  have hinv := inv_of_reachable hs
  have hinv' := inv_addItem hinv B
  have hB' : B.id ∉ UMap.keys s.itemById := hB
  have hd : B.description = A.description := hdesc
  have hAB : A ≠ B := by
    rintro rfl
    exact hB (List.mem_map_of_mem Prod.fst hA)
  have hstate := addItem_of_not_mem hB'
  have hmemB : (A.description, B) ∈ (s.addItem B).2.itemByDescription := by
    rw [hstate, ← hd]
    exact OMap.mem_assign_self _ _ _
  have hkeys : ((s.addItem B).2.itemByDescription.map Prod.fst).Nodup :=
    OMap.nodup_keys_of_sorted hinv'.descSorted
  have hA' : (A.getId, A) ∈ (s.addItem B).2.itemById := by
    rw [hstate]; exact List.mem_append_left _ hA
  have hnotA : A ∉ secondaryRecords (s.addItem B).2 := by
    intro hmem
    obtain ⟨p, hp, hpA⟩ := List.mem_map.mp hmem
    have hk : p.1 = A.description := by rw [← hinv'.descKeyed p hp, hpA]
    have hpe : p = (A.description, B) := List.inj_on_of_nodup_map hkeys hp hmemB hk
    exact hAB (by rw [← hpA, hpe])
  refine ⟨by rw [hstate], ?_, hnotA, hA', ?_, ?_, ?_⟩
  · rw [hstate, StoredItem.getDescription, ← hd]
    exact OMap.find_assign_self _ _ _
  · rw [hstate]; exact List.mem_append_right _ (List.mem_singleton_self _)
  · have hcongr : ∀ p ∈ (s.addItem B).2.itemByDescription,
        ((fun q : String × String => q.1 == A.getDescription) ∘
          (fun pair : String × StoredItem => (pair.2.getDescription, pair.2.getLocation))) p
          = (fun p : String × StoredItem => p.1 == A.description) p := by
      intro p hp
      simp only [Function.comp, StoredItem.getDescription]
      rw [hinv'.descKeyed p hp]
    rw [listedPairs, List.filter_map, List.filter_congr hcongr,
      List.filter_key_eq_singleton hkeys hmemB]
    simp [StoredItem.getDescription, StoredItem.getLocation, hd]
  · have hlt := List.length_lt_of_nodup_subset (secondaryRecords_nodup hinv')
      (secondary_subset_primary hinv') (List.mem_map_of_mem Prod.snd hA') hnotA
    simpa [listedPairs, secondaryRecords, primaryRecords, UMap.size] using hlt

/-- Adding `item3`, described like `item1`, to the manager of `main`. -/
theorem addItem_description_collision_witness :
    (demo.addItem item3).1 = .ok () ∧
      OMap.find (demo.addItem item3).2.itemByDescription "Wireless Mouse"
        = some ("Wireless Mouse", item3) ∧
      item1 ∉ secondaryRecords (demo.addItem item3).2 ∧
      ("ITEM001", item1) ∈ (demo.addItem item3).2.itemById ∧
      ("ITEM003", item3) ∈ (demo.addItem item3).2.itemById ∧
      (listedPairs (demo.addItem item3).2).filter (fun q => q.1 == "Wireless Mouse")
        = [("Wireless Mouse", "Aisle 9, Shelf 1")] ∧
      (listedPairs (demo.addItem item3).2).length < UMap.size (demo.addItem item3).2.itemById :=
  addItem_description_collision demo ⟨_, rfl⟩ item1 item3 (by decide) (by decide) rfl

/-- C16: take a state of the manager, add `A` and then `B`, both calls returning normally,
where `B` has the description of `A`. Then `removeItem` of the identifier of either record
returns normally and erases the entry of `itemByDescription` for the shared description: the
other record is still returned by `findById`, is held by no entry of `itemByDescription`, and
no listed pair carries its description. -/
theorem removeItem_hides_survivor (s : StorageManager) (hs : Reachable s) (A B : StoredItem)
    (hA : succeeded (s.addItem A).1 = true)
    (hB : succeeded ((s.addItem A).2.addItem B).1 = true)
    (hdesc : A.getDescription = B.getDescription) :
    ((((s.addItem A).2.addItem B).2.removeItem A.getId).1 = .ok () ∧
        OMap.find (((s.addItem A).2.addItem B).2.removeItem A.getId).2.itemByDescription
          B.getDescription = none ∧
        ((((s.addItem A).2.addItem B).2.removeItem A.getId).2.findById B.getId).1 = .ok B ∧
        B ∉ secondaryRecords (((s.addItem A).2.addItem B).2.removeItem A.getId).2 ∧
        ∀ q ∈ listedPairs (((s.addItem A).2.addItem B).2.removeItem A.getId).2,
          q.1 ≠ B.getDescription) ∧
      ((((s.addItem A).2.addItem B).2.removeItem B.getId).1 = .ok () ∧
        OMap.find (((s.addItem A).2.addItem B).2.removeItem B.getId).2.itemByDescription
          A.getDescription = none ∧
        ((((s.addItem A).2.addItem B).2.removeItem B.getId).2.findById A.getId).1 = .ok A ∧
        A ∉ secondaryRecords (((s.addItem A).2.addItem B).2.removeItem B.getId).2 ∧
        ∀ q ∈ listedPairs (((s.addItem A).2.addItem B).2.removeItem B.getId).2,
          q.1 ≠ A.getDescription) := by
  have hinv := inv_addItem (inv_addItem (inv_of_reachable hs) A) B
  have hnewA := not_mem_of_addItem_succeeded hA
  have hnewB := not_mem_of_addItem_succeeded hB
  have hmemA1 : (A.id, A) ∈ (s.addItem A).2.itemById := by
    rw [addItem_of_not_mem hnewA]
    exact List.mem_append_right _ (List.mem_singleton_self _)
  have hne : A.id ≠ B.id := by
    intro e
    exact hnewB (e ▸ List.mem_map_of_mem Prod.fst hmemA1)
  have hmemA : (A.id, A) ∈ ((s.addItem A).2.addItem B).2.itemById := by
    rw [addItem_of_not_mem hnewB]
    exact List.mem_append_left _ hmemA1
  have hmemB : (B.id, B) ∈ ((s.addItem A).2.addItem B).2.itemById := by
    rw [addItem_of_not_mem hnewB]
    exact List.mem_append_right _ (List.mem_singleton_self _)
  have hd : A.description = B.description := hdesc
  exact ⟨hides_survivor hinv hmemA hmemB hne hd, hides_survivor hinv hmemB hmemA hne.symm hd.symm⟩

/-- On an empty manager, add `item1` and `item3`, which share "Wireless Mouse"; whichever of
the two is removed, the other is found by identifier and missing from the listing. -/
theorem removeItem_hides_survivor_witness :
    ((((empty.addItem item1).2.addItem item3).2.removeItem "ITEM001").2.findById "ITEM003").1
        = .ok item3 ∧
      listedPairs (((empty.addItem item1).2.addItem item3).2.removeItem "ITEM001").2 = [] ∧
      ((((empty.addItem item1).2.addItem item3).2.removeItem "ITEM003").2.findById "ITEM001").1
        = .ok item1 ∧
      listedPairs (((empty.addItem item1).2.addItem item3).2.removeItem "ITEM003").2 = [] :=
  ⟨(removeItem_hides_survivor empty ⟨[], rfl⟩ item1 item3 rfl rfl rfl).1.2.2.1, rfl,
    (removeItem_hides_survivor empty ⟨[], rfl⟩ item1 item3 rfl rfl rfl).2.2.2.1, rfl⟩

end StorageManager
